import Mathlib

/-
Verification development for the simqso HI-forest optical-depth engine
(src/simqso/hiforest.py), shallowly embedded over the real numbers.

Python floats are modelled by ℝ, numpy arrays by lists (or functions
ℕ → ℝ for the tau array), and the module-level random state by an
explicit per-component oracle.  Every definition below is translated
from the source file; definitions written from the specification's
words (for refinement comparisons) say so in their doc comment.
-/

open Real Filter Topology

noncomputable section

namespace HiForest

/-! ## Module constants (hiforest.py header) -/

/-- Module constant `c = const.c`, the speed of light in m/s (scipy value, exact). -/
def c_light : ℝ := 299792458.0

/-- Module constant `c_kms = c/1e3`. -/
def c_kms : ℝ := c_light / 1e3

/-- Module constant `sqrt_pi = sqrt(pi)`. -/
def sqrt_pi : ℝ := Real.sqrt π

/-- Module constant `sigma_c = 6.33e-18`. -/
def sigma_c : ℝ := 6.33e-18

/-- Module constant `fourpi = 4*pi`. -/
def fourpi : ℝ := 4 * π

/-! ## The exact Voigt evaluator (`voigt`, hiforest.py lines 160-165) -/

/-- The evaluator `voigt(a,x)`, the Tepper-Garcia 2006 approximation, translated
verbatim from the source. -/
def voigt (a x : ℝ) : ℝ :=
  let x2 := x ^ 2
  let Q := 1.5 / x2
  let H0 := Real.exp (-x2)
  H0 - (a / sqrt_pi) / x2 * (H0 * H0 * (4 * x2 * x2 + 7 * x2 + 4 + Q) - Q - 1)

/-- Written from the specification's words: with `x2 = x²`, `Q = 1.5/x2`
and `H0 = exp(−x2)`, the value is
`H0 − (a/√π)/x2 · (H0²·(4·x2² + 7·x2 + 4 + Q) − Q − 1)`. -/
def voigtSpec (a x : ℝ) : ℝ :=
  let x2 := x ^ 2
  let Q := 1.5 / x2
  let H0 := Real.exp (-x2)
  H0 - (a / Real.sqrt π) / x2 * (H0 ^ 2 * (4 * x2 ^ 2 + 7 * x2 + 4 + Q) - Q - 1)

/-! ## Numeric bounds used throughout -/

lemma sqrt_pi_bounds : 1.772 < sqrt_pi ∧ sqrt_pi < 1.775 := by
  have hsq : sqrt_pi ^ 2 = π := Real.sq_sqrt Real.pi_pos.le
  have hnn : 0 ≤ sqrt_pi := Real.sqrt_nonneg π
  constructor
  · nlinarith [Real.pi_gt_d6, hsq, hnn]
  · nlinarith [Real.pi_lt_d6, hsq, hnn]

lemma sqrt_pi_inv_bounds : 0.5633 < sqrt_pi⁻¹ ∧ sqrt_pi⁻¹ < 0.5644 := by
  obtain ⟨h1, h2⟩ := sqrt_pi_bounds
  have hp : 0 < sqrt_pi := by linarith
  have hc : sqrt_pi * sqrt_pi⁻¹ = 1 := mul_inv_cancel₀ (ne_of_gt hp)
  have hip : 0 < sqrt_pi⁻¹ := inv_pos.mpr hp
  constructor <;> nlinarith

lemma exp_neg_two_bounds :
    0.13533528 < Real.exp (-2) ∧ Real.exp (-2) < 0.13533529 := by
  have h : Real.exp (-2) = Real.exp (-1) * Real.exp (-1) := by
    rw [← Real.exp_add]; norm_num
  have h1 := Real.exp_neg_one_gt_d9
  have h2 := Real.exp_neg_one_lt_d9
  have hp : (0:ℝ) < Real.exp (-1) := Real.exp_pos _
  constructor <;> nlinarith

lemma exp_neg_half_bounds :
    0.6065 < Real.exp (-(1/2 : ℝ)) ∧ Real.exp (-(1/2 : ℝ)) < 0.6066 := by
  have h : Real.exp (-(1/2 : ℝ)) * Real.exp (-(1/2 : ℝ)) = Real.exp (-1) := by
    rw [← Real.exp_add]; norm_num
  have h1 := Real.exp_neg_one_gt_d9
  have h2 := Real.exp_neg_one_lt_d9
  have hp : (0:ℝ) < Real.exp (-(1/2 : ℝ)) := Real.exp_pos _
  constructor <;> nlinarith

/-- Closed form of `voigt 1 1` in terms of `exp (-1)` and `√π`. -/
lemma voigt_one_one_eq :
    voigt 1 1 =
      Real.exp (-1) - sqrt_pi⁻¹ * (Real.exp (-1) * Real.exp (-1) * 16.5 - 2.5) := by
  show (Real.exp (-(1:ℝ)^2) - (1 / sqrt_pi) / (1:ℝ)^2 *
      (Real.exp (-(1:ℝ)^2) * Real.exp (-(1:ℝ)^2) *
        (4 * (1:ℝ)^2 * (1:ℝ)^2 + 7 * (1:ℝ)^2 + 4 + 1.5 / (1:ℝ)^2)
        - 1.5 / (1:ℝ)^2 - 1)) = _
  ring_nf

lemma voigt_one_one_bounds : 0.518 < voigt 1 1 ∧ voigt 1 1 < 0.519 := by
  rw [voigt_one_one_eq]
  obtain ⟨hi1, hi2⟩ := sqrt_pi_inv_bounds
  have he1 := Real.exp_neg_one_gt_d9
  have he2 := Real.exp_neg_one_lt_d9
  obtain ⟨h21, h22⟩ := exp_neg_two_bounds
  have hEE : Real.exp (-1) * Real.exp (-1) = Real.exp (-2) := by
    rw [← Real.exp_add]; norm_num
  rw [hEE]
  constructor <;> nlinarith

/-- Closed form of `voigt (1/2) 1`. -/
lemma voigt_half_one_eq :
    voigt (1/2) 1 =
      Real.exp (-1) - (1/2) * sqrt_pi⁻¹ * (Real.exp (-1) * Real.exp (-1) * 16.5 - 2.5) := by
  show (Real.exp (-(1:ℝ)^2) - ((1/2 : ℝ) / sqrt_pi) / (1:ℝ)^2 *
      (Real.exp (-(1:ℝ)^2) * Real.exp (-(1:ℝ)^2) *
        (4 * (1:ℝ)^2 * (1:ℝ)^2 + 7 * (1:ℝ)^2 + 4 + 1.5 / (1:ℝ)^2)
        - 1.5 / (1:ℝ)^2 - 1)) = _
  ring_nf

lemma voigt_half_one_bounds : 0.443 < voigt (1/2) 1 ∧ voigt (1/2) 1 < 0.4433 := by
  rw [voigt_half_one_eq]
  obtain ⟨hi1, hi2⟩ := sqrt_pi_inv_bounds
  have he1 := Real.exp_neg_one_gt_d9
  have he2 := Real.exp_neg_one_lt_d9
  obtain ⟨h21, h22⟩ := exp_neg_two_bounds
  have hEE : Real.exp (-1) * Real.exp (-1) = Real.exp (-2) := by
    rw [← Real.exp_add]; norm_num
  rw [hEE]
  constructor <;> nlinarith

/-- Closed form of `voigt 3 (√(1/2))`. -/
lemma voigt_three_sqrt_half_eq :
    voigt 3 (Real.sqrt (1/2)) =
      Real.exp (-(1/2 : ℝ)) - 6 * sqrt_pi⁻¹ * (11.5 * Real.exp (-1) - 4) := by
  have hx2 : (Real.sqrt (1/2 : ℝ)) ^ 2 = 1/2 := Real.sq_sqrt (by norm_num)
  show (Real.exp (-(Real.sqrt (1/2:ℝ))^2) -
      ((3:ℝ) / sqrt_pi) / (Real.sqrt (1/2:ℝ))^2 *
      (Real.exp (-(Real.sqrt (1/2:ℝ))^2) * Real.exp (-(Real.sqrt (1/2:ℝ))^2) *
        (4 * (Real.sqrt (1/2:ℝ))^2 * (Real.sqrt (1/2:ℝ))^2 + 7 * (Real.sqrt (1/2:ℝ))^2
          + 4 + 1.5 / (Real.sqrt (1/2:ℝ))^2)
        - 1.5 / (Real.sqrt (1/2:ℝ))^2 - 1)) = _
  rw [hx2]
  have hEE : Real.exp (-(1/2 : ℝ)) * Real.exp (-(1/2 : ℝ)) = Real.exp (-1) := by
    rw [← Real.exp_add]; norm_num
  rw [hEE]
  ring

/-- The Tepper-Garcia expression is negative at `a = 3`, `x = √(1/2)`. -/
lemma voigt_three_sqrt_half_neg : voigt 3 (Real.sqrt (1/2)) < 0 := by
  rw [voigt_three_sqrt_half_eq]
  obtain ⟨hi1, hi2⟩ := sqrt_pi_inv_bounds
  obtain ⟨hh1, hh2⟩ := exp_neg_half_bounds
  have he1 := Real.exp_neg_one_gt_d9
  nlinarith

/-! ## Asymptotics of the exact Voigt evaluator (claim C8) -/

lemma voigt_even (a x : ℝ) : voigt a (-x) = voigt a x := by
  simp only [voigt, neg_sq]

lemma voigt_eq_of_ne (a x : ℝ) (hx : x ≠ 0) :
    voigt a x =
      Real.exp (-x^2)
        - a / sqrt_pi *
          (4 * (x^2 * (Real.exp (-x^2) * Real.exp (-x^2)))
            + 7 * (Real.exp (-x^2) * Real.exp (-x^2))
            + 4 * ((x^2)⁻¹ * (Real.exp (-x^2) * Real.exp (-x^2)))
            + 1.5 * ((x^4)⁻¹ * (Real.exp (-x^2) * Real.exp (-x^2)))
            - 1.5 * (x^4)⁻¹ - (x^2)⁻¹) := by
  have hS : sqrt_pi ≠ 0 :=
    ne_of_gt (Real.sqrt_pos.mpr Real.pi_pos)
  have hx2 : (x:ℝ)^2 ≠ 0 := pow_ne_zero _ hx
  have hx4 : (x:ℝ)^4 ≠ 0 := pow_ne_zero _ hx
  simp only [voigt]
  field_simp
  ring

lemma sq_tendsto_atTop : Tendsto (fun x : ℝ => x ^ 2) atTop atTop :=
  tendsto_pow_atTop two_ne_zero

lemma exp_neg_sq_tendsto : Tendsto (fun x : ℝ => Real.exp (-x^2)) atTop (𝓝 0) :=
  Real.tendsto_exp_atBot.comp (tendsto_neg_atTop_atBot.comp sq_tendsto_atTop)

lemma sq_mul_exp_tendsto :
    Tendsto (fun x : ℝ => x^2 * Real.exp (-x^2)) atTop (𝓝 0) := by
  have h := (Real.tendsto_pow_mul_exp_neg_atTop_nhds_zero 1).comp sq_tendsto_atTop
  simpa using h

lemma voigt_tendsto_atTop (a : ℝ) :
    Tendsto (fun x => voigt a x) atTop (𝓝 0) := by
  have hE := exp_neg_sq_tendsto
  have hEE : Tendsto (fun x : ℝ => Real.exp (-x^2) * Real.exp (-x^2)) atTop (𝓝 0) := by
    simpa using hE.mul hE
  have hIx2 : Tendsto (fun x : ℝ => (x^2)⁻¹) atTop (𝓝 0) :=
    tendsto_inv_atTop_zero.comp sq_tendsto_atTop
  have hIx4 : Tendsto (fun x : ℝ => (x^4)⁻¹) atTop (𝓝 0) :=
    tendsto_inv_atTop_zero.comp (tendsto_pow_atTop (by norm_num))
  have hT1 : Tendsto (fun x : ℝ => x^2 * (Real.exp (-x^2) * Real.exp (-x^2))) atTop (𝓝 0) := by
    have := sq_mul_exp_tendsto.mul hE
    simpa [mul_assoc] using this
  have hInner : Tendsto (fun x : ℝ =>
      4 * (x^2 * (Real.exp (-x^2) * Real.exp (-x^2)))
        + 7 * (Real.exp (-x^2) * Real.exp (-x^2))
        + 4 * ((x^2)⁻¹ * (Real.exp (-x^2) * Real.exp (-x^2)))
        + 1.5 * ((x^4)⁻¹ * (Real.exp (-x^2) * Real.exp (-x^2)))
        - 1.5 * (x^4)⁻¹ - (x^2)⁻¹) atTop (𝓝 0) := by
    have h3 := hIx2.mul hEE
    have h4 := hIx4.mul hEE
    have hsum := ((((hT1.const_mul (4:ℝ)).add (hEE.const_mul (7:ℝ))).add
        (h3.const_mul (4:ℝ))).add (h4.const_mul (1.5:ℝ))).sub (hIx4.const_mul (1.5:ℝ))
    have := hsum.sub hIx2
    simpa using this
  have hMain : Tendsto (fun x : ℝ => Real.exp (-x^2)
      - a / sqrt_pi *
        (4 * (x^2 * (Real.exp (-x^2) * Real.exp (-x^2)))
          + 7 * (Real.exp (-x^2) * Real.exp (-x^2))
          + 4 * ((x^2)⁻¹ * (Real.exp (-x^2) * Real.exp (-x^2)))
          + 1.5 * ((x^4)⁻¹ * (Real.exp (-x^2) * Real.exp (-x^2)))
          - 1.5 * (x^4)⁻¹ - (x^2)⁻¹)) atTop (𝓝 0) := by
    have := hE.sub (hInner.const_mul (a / sqrt_pi))
    simpa using this
  apply hMain.congr'
  filter_upwards [eventually_gt_atTop (0:ℝ)] with x hx
  exact (voigt_eq_of_ne a x (ne_of_gt hx)).symm

lemma voigt_tendsto_atBot (a : ℝ) :
    Tendsto (fun x => voigt a x) atBot (𝓝 0) := by
  have h := (voigt_tendsto_atTop a).comp tendsto_neg_atBot_atTop
  exact h.congr fun x => voigt_even a x

/-! ## The fast/cached Voigt evaluator (`VoigtFast`, hiforest.py lines 167-176) -/

/-- Default `u_range` argument of `VoigtFast.__init__`. -/
def u_range : ℝ := 10

/-- Default `npts` argument of `VoigtFast.__init__`. -/
def npts : ℕ := 1000

/-- Semantics of `np.linspace(lo, hi, n)` with its default endpoint behaviour. -/
def linspace (lo hi : ℝ) (n : ℕ) : List ℝ :=
  (List.range n).map fun i : ℕ => lo + (hi - lo) * (i:ℝ) / ((n:ℝ) - 1)

/-- The bins `self.logabins = [-3.0 - 0.05*n**1.4 for n in range(30)]`. -/
def logabins : List ℝ :=
  (List.range 30).map fun n : ℕ => -3.0 - 0.05 * (n:ℝ) ^ (1.4:ℝ)

/-- The grid `xfast = np.linspace(-u_range, u_range, npts)`. -/
def xfast : List ℝ := linspace (-u_range) u_range npts

/-- Piecewise-linear interpolation through a list of sample points,
returning 0 outside the sampled range: the semantics of scipy
`interp1d(..., bounds_error=False, fill_value=0.0)` on an increasing grid. -/
def interpPts : List (ℝ × ℝ) → ℝ → ℝ
  | [], _ => 0
  | [_], _ => 0
  | p :: q :: rest, x =>
      if p.1 ≤ x ∧ x ≤ q.1 then p.2 + (q.2 - p.2) * (x - p.1) / (q.1 - p.1)
      else interpPts (q :: rest) x

/-- The cached interpolants `self.voigt_interp`: one interpolated
profile per `a`-bin, sampling the exact `voigt` on `xfast`. -/
def voigt_interp : List (ℝ → ℝ) :=
  logabins.map fun loga =>
    fun x => interpPts (xfast.map fun t => (t, voigt ((10:ℝ) ^ loga) t)) x

/-- Semantics of `np.argmin` of `f` over a list: index of the first minimal value. -/
def argminIdx (f : ℝ → ℝ) : List ℝ → ℕ
  | [] => 0
  | [_] => 0
  | v :: w :: rest =>
      let j := argminIdx f (w :: rest)
      if f ((w :: rest).getD j 0) < f v then j + 1 else 0

/-- The bin choice `ai = np.argmin(np.abs(np.log10(a)-self.logabins))` in
`VoigtFast.__call__`. -/
def nearestBin (a : ℝ) : ℕ :=
  argminIdx (fun la => |Real.logb 10 a - la|) logabins

/-- The call `VoigtFast.__call__(a, x)`: snap `a` to the nearest cached bin and
evaluate that bin's interpolant at `x`. -/
def VoigtFast_call (a x : ℝ) : ℝ :=
  (voigt_interp.getD (nearestBin a) (fun _ => 0)) x

lemma interpPts_zero_of_gt (x : ℝ) :
    ∀ pts : List (ℝ × ℝ), (∀ p ∈ pts, p.1 < x) → interpPts pts x = 0
  | [], _ => rfl
  | [_], _ => rfl
  | p :: q :: rest, h => by
      have hq : q.1 < x := h q (List.mem_cons_of_mem _ (List.mem_cons_self _ _))
      have hc : ¬ (p.1 ≤ x ∧ x ≤ q.1) := fun hc => absurd hc.2 (not_le.mpr hq)
      simp only [interpPts, if_neg hc]
      exact interpPts_zero_of_gt x (q :: rest) fun r hr => h r (List.mem_cons_of_mem _ hr)

lemma interpPts_zero_of_lt (x : ℝ) :
    ∀ pts : List (ℝ × ℝ), (∀ p ∈ pts, x < p.1) → interpPts pts x = 0
  | [], _ => rfl
  | [_], _ => rfl
  | p :: q :: rest, h => by
      have hp : x < p.1 := h p (List.mem_cons_self _ _)
      have hc : ¬ (p.1 ≤ x ∧ x ≤ q.1) := fun hc => absurd hc.1 (not_le.mpr hp)
      simp only [interpPts, if_neg hc]
      exact interpPts_zero_of_lt x (q :: rest) fun r hr => h r (List.mem_cons_of_mem _ hr)

lemma xfast_mem_bounds : ∀ t ∈ xfast, -u_range ≤ t ∧ t ≤ u_range := by
  intro t ht
  rw [xfast, linspace, List.mem_map] at ht
  obtain ⟨i, hmem, heq⟩ := ht
  rw [List.mem_range] at hmem
  subst heq
  have hmem' : i < 1000 := by simpa [npts] using hmem
  have hi' : (i:ℝ) ≤ 999 := by exact_mod_cast Nat.lt_succ_iff.mp hmem'
  have hnn : (0:ℝ) ≤ (i:ℝ) := by positivity
  constructor <;> · simp only [u_range, npts]; push_cast; nlinarith

lemma argminIdx_lt_length (f : ℝ → ℝ) :
    ∀ l : List ℝ, l ≠ [] → argminIdx f l < l.length
  | [], h => absurd rfl h
  | [v], _ => Nat.zero_lt_one
  | v :: w :: rest, _ => by
      simp only [argminIdx]
      by_cases hlt : f ((w :: rest).getD (argminIdx f (w :: rest)) 0) < f v
      · rw [if_pos hlt]
        have := argminIdx_lt_length f (w :: rest) (by simp)
        simpa [List.length_cons] using Nat.succ_lt_succ this
      · rw [if_neg hlt]
        simp [List.length_cons]

lemma argminIdx_min (f : ℝ → ℝ) :
    ∀ l : List ℝ, ∀ i < l.length, f (l.getD (argminIdx f l) 0) ≤ f (l.getD i 0)
  | [], i, hi => absurd hi (by simp)
  | [v], i, hi => by
      cases i with
      | zero => exact le_refl _
      | succ k => exact absurd hi (by simp)
  | v :: w :: rest, i, hi => by
      simp only [argminIdx]
      by_cases hlt : f ((w :: rest).getD (argminIdx f (w :: rest)) 0) < f v
      · rw [if_pos hlt]
        cases i with
        | zero => simpa using hlt.le
        | succ k =>
            have hk : k < (w :: rest).length := by simpa using hi
            have h1 := argminIdx_min f (w :: rest) k hk
            simpa using h1
      · rw [if_neg hlt]
        cases i with
        | zero => simp
        | succ k =>
            have hk : k < (w :: rest).length := by simpa using hi
            have h1 := argminIdx_min f (w :: rest) k hk
            have h2 : f v ≤ f ((w :: rest).getD (argminIdx f (w :: rest)) 0) :=
              le_of_not_lt hlt
            simpa using le_trans h2 h1

lemma logabins_length : logabins.length = 30 := by
  rw [logabins, List.length_map, List.length_range]

lemma logabins_ne_nil : logabins ≠ [] :=
  List.ne_nil_of_length_pos (by rw [logabins_length]; norm_num)

lemma nearestBin_lt (a : ℝ) : nearestBin a < logabins.length :=
  argminIdx_lt_length _ _ logabins_ne_nil

/-- The interpolant actually looked up by `VoigtFast.__call__` is the
interpolation of the exact profile at the selected bin. -/
lemma VoigtFast_call_eq (a x : ℝ) :
    VoigtFast_call a x =
      interpPts
        (xfast.map fun t => (t, voigt ((10:ℝ) ^ logabins.getD (nearestBin a) 0) t)) x := by
  have h : nearestBin a < voigt_interp.length := by
    simpa [voigt_interp] using nearestBin_lt a
  rw [VoigtFast_call, List.getD_eq_getElem _ _ h]
  simp only [voigt_interp, List.getElem_map]
  rw [List.getD_eq_getElem _ _ (nearestBin_lt a)]

/-! ## The optical-depth accumulator (`calc_tau_lambda`, hiforest.py lines 178-225)

The Lyman-series transition data (`linelist.WREST/F/GAMMA` indexed through
`LymanSeries`) lives in an external FITS file loaded at import time; it is
modelled as an explicit list of transition records passed to the
accumulator.  The wavelength grid is a list; the tau array (numpy
`zeros_like(wave)` or the `tauIn` argument) is modelled as a function
ℕ → ℝ indexed by wavelength-grid position. -/

/-- One Lyman-series transition: rest wavelength `WREST`, oscillator
strength `F`, damping constant `GAMMA`. -/
structure Transition where
  lambda0 : ℝ
  F : ℝ
  Gamma : ℝ

/-- One absorber of a sightline: the `(z, logNHI, b)` record produced by
`generateLOS`. -/
structure Absorber where
  z : ℝ
  logNHI : ℝ
  b : ℝ

/-- Doppler width `nu_D = b / (lambda0*1e-13)`. -/
def nu_D (t : Transition) (ab : Absorber) : ℝ := ab.b / (t.lambda0 * 1e-13)

/-- Damping parameter `a = Gamma / (fourpi*nu_D)`. -/
def aparam (t : Transition) (ab : Absorber) : ℝ := t.Gamma / (fourpi * nu_D t ab)

/-- Redshifted line centre `lambda_z = lambda0*z1` with `z1 = 1 + z`. -/
def lambda_z (t : Transition) (ab : Absorber) : ℝ := t.lambda0 * (1 + ab.z)

/-- Normalisation `c_voigt = 0.014971475 * NHI * F / nu_D` with `NHI = 10**logNHI`. -/
def c_voigt (t : Transition) (ab : Absorber) : ℝ :=
  0.014971475 * (10:ℝ) ^ ab.logNHI * t.F / nu_D t ab

/-- Half-width `umax = np.clip(np.sqrt(c_voigt*(a/sqrt_pi)/tauMin), 5.0, np.inf)`;
the upper clip at `np.inf` is a no-op, so this is a max with 5. -/
def umaxOf (tauMin : ℝ) (t : Transition) (ab : Absorber) : ℝ :=
  max (Real.sqrt (c_voigt t ab * (aparam t ab / sqrt_pi) / tauMin)) 5.0

/-- Reduced frequency `u = (wave/lambda_z[i] - 1) / bnorm[i]` with `bnorm = b/c_kms`. -/
def uval (t : Transition) (ab : Absorber) (w : ℝ) : ℝ :=
  (w / lambda_z t ab - 1) / (ab.b / c_kms)

/-- Semantics of `np.searchsorted(u, v)` (side='left') for an ascending array: the
number of entries strictly below `v`. -/
def searchsortedLeft (l : List ℝ) (v : ℝ) : ℕ :=
  l.countP fun t => decide (t < v)

/-- The profile selected by the `fast` keyword: the cached interpolant
(`VoigtFast()`) when fast, the exact `voigt` otherwise. -/
def voigtProfileOf (fast : Bool) : ℝ → ℝ → ℝ :=
  if fast then VoigtFast_call else voigt

/-- The body of the inner loop of `calc_tau_lambda` for one absorber `ab`
and one transition `t`: skip if the first grid point is already past
`umax`; otherwise locate the window `[i1,i2)` by binary search, skip if
every tau value in the window already exceeds `tauMax`
(`np.all(tau_lam[i1:i2] > tauMax)`), else add
`c_voigt * profile(a, |u|)` into the window. -/
def absStep (P : ℝ → ℝ → ℝ) (tauMax tauMin : ℝ) (wave : List ℝ)
    (t : Transition) (ab : Absorber) (tau : ℕ → ℝ) : ℕ → ℝ :=
  let u := wave.map (uval t ab)
  if umaxOf tauMin t ab < u.headD 0 then tau
  else
    let i1 := searchsortedLeft u (-(umaxOf tauMin t ab))
    let i2 := searchsortedLeft u (umaxOf tauMin t ab)
    if ∀ j ∈ Finset.Ico i1 i2, tauMax < tau j then tau
    else fun j =>
      if i1 ≤ j ∧ j < i2 then tau j + c_voigt t ab * P (aparam t ab) |u.getD j 0|
      else tau j

/-- Stable ascending insertion by `logNHI`, used to model
`np.argsort(los['logNHI'])`. -/
def insertByLogNHI (x : Absorber) : List Absorber → List Absorber
  | [] => [x]
  | y :: ys => if x.logNHI ≤ y.logNHI then x :: y :: ys else y :: insertByLogNHI x ys

/-- The ordering `ii = np.argsort(los['logNHI'])[::-1]` applied to the absorber list:
reverse of an ascending sort by `logNHI`. -/
def argsortDescLogNHI (los : List Absorber) : List Absorber :=
  (los.foldr insertByLogNHI []).reverse

/-- The accumulator `calc_tau_lambda(los, zem, wave, **kwargs)`.  The keyword options
`tauMax` (default 15.0), `tauMin` (default 1e-5), `tauIn` (the starting
tau array, default zeros) and `fast` (default True) are explicit
arguments; `zem` is accepted and unused, exactly as in the source; the
transition list stands for the `lymanseries_range` slice of the atlas. -/
def calc_tau_lambda (fast : Bool) (tauMax tauMin : ℝ) (transitions : List Transition)
    (zem : ℝ) (wave : List ℝ) (los : List Absorber) (tau0 : ℕ → ℝ) : ℕ → ℝ :=
  let P := voigtProfileOf fast
  let sorted := argsortDescLogNHI los
  transitions.foldl
    (fun tl t => sorted.foldl (fun tl2 ab => absStep P tauMax tauMin wave t ab tl2) tl)
    tau0

/-! ## Basic properties of the accumulator -/

lemma umaxOf_ge_five (tauMin : ℝ) (t : Transition) (ab : Absorber) :
    (5:ℝ) ≤ umaxOf tauMin t ab := by
  rw [umaxOf]
  exact le_trans (by norm_num) (le_max_right _ _)

/-- Evaluation of `absStep` on a one-point wavelength grid whose reduced frequency lies
inside the window `(-umax, umax)`. -/
lemma absStep_singleton (P : ℝ → ℝ → ℝ) (tmax tmin : ℝ) (t : Transition) (ab : Absorber)
    (w : ℝ) (tau : ℕ → ℝ) (h1 : uval t ab w < umaxOf tmin t ab)
    (h2 : -(umaxOf tmin t ab) ≤ uval t ab w) :
    absStep P tmax tmin [w] t ab tau =
      if tmax < tau 0 then tau
      else fun j =>
        if j = 0 then tau 0 + c_voigt t ab * P (aparam t ab) |uval t ab w| else tau j := by
  have hi1 : searchsortedLeft [uval t ab w] (-(umaxOf tmin t ab)) = 0 := by
    simp [searchsortedLeft, List.countP_cons, not_lt.mpr h2]
  have hi2 : searchsortedLeft [uval t ab w] (umaxOf tmin t ab) = 1 := by
    simp [searchsortedLeft, List.countP_cons, h1]
  simp only [absStep, List.map_cons, List.map_nil, List.headD_cons]
  rw [if_neg (not_lt.mpr h1.le), hi1, hi2]
  have hiff : (∀ j ∈ Finset.Ico 0 1, tmax < tau j) ↔ tmax < tau 0 := by simp
  rw [if_congr hiff rfl rfl]
  by_cases hsat : tmax < tau 0
  · rw [if_pos hsat, if_pos hsat]
  · rw [if_neg hsat, if_neg hsat]
    funext j
    cases j with
    | zero => simp
    | succ k => simp

/-- Each step of the inner loop can only increase a tau entry, provided
this absorber/transition contribution is pointwise nonnegative. -/
lemma absStep_mono (P : ℝ → ℝ → ℝ) (tmax tmin : ℝ) (wave : List ℝ) (t : Transition)
    (ab : Absorber) (tau : ℕ → ℝ)
    (hc : ∀ y : ℝ, 0 ≤ c_voigt t ab * P (aparam t ab) y) (j : ℕ) :
    tau j ≤ absStep P tmax tmin wave t ab tau j := by
  simp only [absStep, ite_apply]
  split_ifs with hskip hsat hwin
  · exact le_refl _
  · exact le_refl _
  · have := hc |((wave.map (uval t ab)).getD j 0)|
    linarith
  · exact le_refl _

lemma foldl_mono {α : Type} (f : (ℕ → ℝ) → α → (ℕ → ℝ)) (l : List α)
    (h : ∀ tau a, a ∈ l → ∀ j, tau j ≤ f tau a j) :
    ∀ (tau : ℕ → ℝ) (j : ℕ), tau j ≤ (l.foldl f tau) j := by
  induction l with
  | nil => intro tau j; exact le_refl _
  | cons a rest ih =>
      intro tau j
      have h1 := h tau a (List.mem_cons_self _ _) j
      have h2 := ih (fun tau2 b hb => h tau2 b (List.mem_cons_of_mem _ hb)) (f tau a) j
      exact le_trans h1 h2

lemma insertByLogNHI_perm (x : Absorber) :
    ∀ l : List Absorber, (insertByLogNHI x l).Perm (x :: l)
  | [] => List.Perm.refl _
  | y :: ys => by
      simp only [insertByLogNHI]
      split
      · exact List.Perm.refl _
      · exact ((insertByLogNHI_perm x ys).cons y).trans (List.Perm.swap x y ys)

lemma argsortDescLogNHI_perm (l : List Absorber) : (argsortDescLogNHI l).Perm l := by
  rw [argsortDescLogNHI]
  refine (List.reverse_perm _).trans ?_
  induction l with
  | nil => exact List.Perm.refl _
  | cons a rest ih =>
      simp only [List.foldr_cons]
      exact (insertByLogNHI_perm a _).trans (ih.cons a)

/-! ## Concrete accumulator inputs

A fictitious transition with `lambda0 = 1e13` makes `lambda0*1e-13 = 1`,
so the per-absorber quantities take simple closed forms; the absorber
fields (z, logNHI, b) are chosen so the single wavelength point `cw`
falls at reduced frequency exactly 1 for both absorbers. -/

def cT : Transition := ⟨1e13, 10, fourpi⟩

def cA : Absorber := ⟨0, 3, 1⟩

def czB : ℝ := (1 + 1/c_kms) / (1 + 2/c_kms) - 1

def cB : Absorber := ⟨czB, 3, 2⟩

def cw : ℝ := 1e13 * (1 + 1/c_kms)

def cT2 : Transition := ⟨1e13, 1, 3 * fourpi⟩

def cA2 : Absorber := ⟨0, 0, 1⟩

def cw2 : ℝ := 1e13 * (1 + Real.sqrt (1/2) / c_kms)

lemma c_kms_pos : 0 < c_kms := by norm_num [c_kms, c_light]

lemma fourpi_pos : 0 < fourpi := by rw [fourpi]; positivity

lemma rpow_ten_three : (10:ℝ) ^ (3:ℝ) = 1000 := by
  rw [show (3:ℝ) = ((3:ℕ):ℝ) by norm_num, Real.rpow_natCast]
  norm_num

lemma nu_D_cT_cA : nu_D cT cA = 1 := by
  norm_num [nu_D, cT, cA]

lemma nu_D_cT_cB : nu_D cT cB = 2 := by
  norm_num [nu_D, cT, cB]

lemma nu_D_cT2_cA2 : nu_D cT2 cA2 = 1 := by
  norm_num [nu_D, cT2, cA2]

lemma aparam_cT_cA : aparam cT cA = 1 := by
  rw [aparam, nu_D_cT_cA]
  have h := fourpi_pos
  simp only [cT]
  field_simp

lemma aparam_cT_cB : aparam cT cB = 1/2 := by
  rw [aparam, nu_D_cT_cB]
  have h := fourpi_pos
  simp only [cT]
  rw [div_eq_iff (by positivity)]
  ring

lemma aparam_cT2_cA2 : aparam cT2 cA2 = 3 := by
  rw [aparam, nu_D_cT2_cA2]
  have h := fourpi_pos
  simp only [cT2]
  rw [div_eq_iff (by positivity)]
  ring

lemma c_voigt_cT_cA : c_voigt cT cA = 149.71475 := by
  rw [c_voigt, nu_D_cT_cA]
  simp only [cT, cA]
  rw [rpow_ten_three]
  norm_num

lemma c_voigt_cT_cB : c_voigt cT cB = 74.857375 := by
  rw [c_voigt, nu_D_cT_cB]
  simp only [cT, cB]
  rw [rpow_ten_three]
  norm_num

lemma c_voigt_cT2_cA2 : c_voigt cT2 cA2 = 0.014971475 := by
  rw [c_voigt, nu_D_cT2_cA2]
  simp only [cT2, cA2]
  rw [Real.rpow_zero]
  norm_num

lemma uval_cT_cA : uval cT cA cw = 1 := by
  have h0 : c_kms ≠ 0 := ne_of_gt c_kms_pos
  rw [uval, lambda_z]
  simp only [cT, cA, cw]
  field_simp
  ring

lemma uval_cT_cB : uval cT cB cw = 1 := by
  have hk := c_kms_pos
  have h0 : c_kms ≠ 0 := ne_of_gt hk
  have h2 : (1:ℝ) + 2/c_kms ≠ 0 := by positivity
  rw [uval, lambda_z]
  simp only [cT, cB, czB, cw]
  rw [show (1:ℝ) + ((1 + 1/c_kms) / (1 + 2/c_kms) - 1) = (1 + 1/c_kms) / (1 + 2/c_kms) by ring]
  have h1 : (1:ℝ) + 1/c_kms ≠ 0 := by positivity
  field_simp
  ring

lemma uval_cT2_cA2 : uval cT2 cA2 cw2 = Real.sqrt (1/2) := by
  have h0 : c_kms ≠ 0 := ne_of_gt c_kms_pos
  rw [uval, lambda_z]
  simp only [cT2, cA2, cw2]
  field_simp
  ring

lemma sqrt_half_nonneg : (0:ℝ) ≤ Real.sqrt (1/2) := Real.sqrt_nonneg _

lemma sqrt_half_lt_one : Real.sqrt (1/2) < 1 := by
  have h := Real.sq_sqrt (show (0:ℝ) ≤ 1/2 by norm_num)
  nlinarith [sqrt_half_nonneg]

lemma voigtProfileOf_false : voigtProfileOf false = voigt := rfl

lemma sort_single (ab : Absorber) : argsortDescLogNHI [ab] = [ab] := rfl

lemma sort_cAcB : argsortDescLogNHI [cA, cB] = [cB, cA] := by
  rw [argsortDescLogNHI]
  simp only [List.foldr_cons, List.foldr_nil, insertByLogNHI]
  rw [if_pos (by norm_num [cA, cB])]
  rfl

lemma sort_cBcA : argsortDescLogNHI [cB, cA] = [cA, cB] := by
  rw [argsortDescLogNHI]
  simp only [List.foldr_cons, List.foldr_nil, insertByLogNHI]
  rw [if_pos (by norm_num [cA, cB])]
  rfl

/-! ## Evaluating the accumulator on the concrete inputs -/

lemma window_cT_cB :
    uval cT cB cw < umaxOf 1e-5 cT cB ∧ -(umaxOf 1e-5 cT cB) ≤ uval cT cB cw := by
  have h5 := umaxOf_ge_five 1e-5 cT cB
  rw [uval_cT_cB]
  constructor <;> linarith

lemma window_cT_cA :
    uval cT cA cw < umaxOf 1e-5 cT cA ∧ -(umaxOf 1e-5 cT cA) ≤ uval cT cA cw := by
  have h5 := umaxOf_ge_five 1e-5 cT cA
  rw [uval_cT_cA]
  constructor <;> linarith

lemma contrib_cB_gt : (15:ℝ) < c_voigt cT cB * voigt (aparam cT cB) 1 := by
  rw [c_voigt_cT_cB, aparam_cT_cB]
  nlinarith [voigt_half_one_bounds.1]

lemma contrib_cA_gt : (15:ℝ) < c_voigt cT cA * voigt (aparam cT cA) 1 := by
  rw [c_voigt_cT_cA, aparam_cT_cA]
  nlinarith [voigt_one_one_bounds.1]

lemma stepB_zero :
    absStep voigt 15 1e-5 [cw] cT cB (fun _ => 0) =
      fun j => if j = 0 then c_voigt cT cB * voigt (aparam cT cB) 1 else 0 := by
  rw [absStep_singleton _ _ _ _ _ _ _ window_cT_cB.1 window_cT_cB.2]
  rw [if_neg (by norm_num)]
  funext j
  rw [uval_cT_cB, abs_one]
  by_cases hj : j = 0
  · rw [if_pos hj, if_pos hj]
    norm_num
  · rw [if_neg hj, if_neg hj]

lemma stepA_zero :
    absStep voigt 15 1e-5 [cw] cT cA (fun _ => 0) =
      fun j => if j = 0 then c_voigt cT cA * voigt (aparam cT cA) 1 else 0 := by
  rw [absStep_singleton _ _ _ _ _ _ _ window_cT_cA.1 window_cT_cA.2]
  rw [if_neg (by norm_num)]
  funext j
  rw [uval_cT_cA, abs_one]
  by_cases hj : j = 0
  · rw [if_pos hj, if_pos hj]
    norm_num
  · rw [if_neg hj, if_neg hj]

lemma run1_eval :
    calc_tau_lambda false 15 1e-5 [cT] 0 [cw] [cA, cB] (fun _ => 0) 0
      = c_voigt cT cB * voigt (aparam cT cB) 1 := by
  have hstep2 :
      absStep voigt 15 1e-5 [cw] cT cA (absStep voigt 15 1e-5 [cw] cT cB (fun _ => 0))
        = absStep voigt 15 1e-5 [cw] cT cB (fun _ => 0) := by
    rw [absStep_singleton _ _ _ _ _ _ _ window_cT_cA.1 window_cT_cA.2, if_pos]
    rw [stepB_zero]
    simpa using contrib_cB_gt
  simp only [calc_tau_lambda, voigtProfileOf_false, sort_cAcB,
    List.foldl_cons, List.foldl_nil]
  rw [hstep2, stepB_zero]
  simp

lemma run2_eval :
    calc_tau_lambda false 15 1e-5 [cT] 0 [cw] [cB, cA] (fun _ => 0) 0
      = c_voigt cT cA * voigt (aparam cT cA) 1 := by
  have hstep2 :
      absStep voigt 15 1e-5 [cw] cT cB (absStep voigt 15 1e-5 [cw] cT cA (fun _ => 0))
        = absStep voigt 15 1e-5 [cw] cT cA (fun _ => 0) := by
    rw [absStep_singleton _ _ _ _ _ _ _ window_cT_cB.1 window_cT_cB.2, if_pos]
    rw [stepA_zero]
    simpa using contrib_cA_gt
  simp only [calc_tau_lambda, voigtProfileOf_false, sort_cBcA,
    List.foldl_cons, List.foldl_nil]
  rw [hstep2, stepA_zero]
  simp

/-! ## The saturation-free variant of the accumulator (for the amended C6)

`calc_tau_lambda_nosat` is `calc_tau_lambda` with the single
`np.all(tau_lam[i1:i2] > tauMax)` early-exit removed; it is introduced
only to state what survives of the order-independence claim. -/

/-- Variant of `absStep` without the tauMax saturation early-exit. -/
def absStepNS (P : ℝ → ℝ → ℝ) (tauMin : ℝ) (wave : List ℝ)
    (t : Transition) (ab : Absorber) (tau : ℕ → ℝ) : ℕ → ℝ :=
  let u := wave.map (uval t ab)
  if umaxOf tauMin t ab < u.headD 0 then tau
  else fun j =>
    if searchsortedLeft u (-(umaxOf tauMin t ab)) ≤ j ∧
        j < searchsortedLeft u (umaxOf tauMin t ab) then
      tau j + c_voigt t ab * P (aparam t ab) |u.getD j 0|
    else tau j

/-- Variant of `calc_tau_lambda` with the saturation early-exit disabled. -/
def calc_tau_lambda_nosat (fast : Bool) (tauMin : ℝ) (transitions : List Transition)
    (zem : ℝ) (wave : List ℝ) (los : List Absorber) (tau0 : ℕ → ℝ) : ℕ → ℝ :=
  let P := voigtProfileOf fast
  let sorted := argsortDescLogNHI los
  transitions.foldl
    (fun tl t => sorted.foldl (fun tl2 ab => absStepNS P tauMin wave t ab tl2) tl)
    tau0

/-- The tau-independent contribution a (transition, absorber) pair adds at
grid position `j` in the saturation-free accumulator. -/
def contribNS (P : ℝ → ℝ → ℝ) (tauMin : ℝ) (wave : List ℝ)
    (t : Transition) (ab : Absorber) (j : ℕ) : ℝ :=
  let u := wave.map (uval t ab)
  if umaxOf tauMin t ab < u.headD 0 then 0
  else if searchsortedLeft u (-(umaxOf tauMin t ab)) ≤ j ∧
      j < searchsortedLeft u (umaxOf tauMin t ab) then
    c_voigt t ab * P (aparam t ab) |u.getD j 0|
  else 0

lemma absStepNS_eq_add (P : ℝ → ℝ → ℝ) (tauMin : ℝ) (wave : List ℝ)
    (t : Transition) (ab : Absorber) (tau : ℕ → ℝ) :
    absStepNS P tauMin wave t ab tau = fun j => tau j + contribNS P tauMin wave t ab j := by
  funext j
  simp only [absStepNS, contribNS, ite_apply]
  split_ifs with h1 h2
  · ring
  · rfl
  · ring

lemma foldl_perm_of_comm {α β : Type} (f : β → α → β)
    (hf : ∀ b a₁ a₂, f (f b a₁) a₂ = f (f b a₂) a₁) {l₁ l₂ : List α}
    (h : l₁.Perm l₂) : ∀ b, l₁.foldl f b = l₂.foldl f b := by
  induction h with
  | nil => intro b; rfl
  | cons x _ ih => intro b; simp only [List.foldl_cons]; exact ih _
  | swap x y l => intro b; simp only [List.foldl_cons]; rw [hf]
  | trans _ _ ih₁ ih₂ => intro b; rw [ih₁, ih₂]

lemma absStepNS_comm (P : ℝ → ℝ → ℝ) (tauMin : ℝ) (wave : List ℝ) (t : Transition)
    (tau : ℕ → ℝ) (a₁ a₂ : Absorber) :
    absStepNS P tauMin wave t a₂ (absStepNS P tauMin wave t a₁ tau)
      = absStepNS P tauMin wave t a₁ (absStepNS P tauMin wave t a₂ tau) := by
  simp only [absStepNS_eq_add]
  funext j
  ring

/-! ## Windows and steps for the C2 counterexample input -/

lemma window_cT2_cA2 :
    uval cT2 cA2 cw2 < umaxOf 1e-5 cT2 cA2 ∧
      -(umaxOf 1e-5 cT2 cA2) ≤ uval cT2 cA2 cw2 := by
  have h5 := umaxOf_ge_five 1e-5 cT2 cA2
  rw [uval_cT2_cA2]
  constructor
  · linarith [sqrt_half_lt_one]
  · linarith [sqrt_half_nonneg]

lemma step_cT2_cA2 :
    absStep voigt 15 1e-5 [cw2] cT2 cA2 (fun _ => 0) =
      fun j => if j = 0 then
          c_voigt cT2 cA2 * voigt (aparam cT2 cA2) (Real.sqrt (1/2))
        else 0 := by
  rw [absStep_singleton _ _ _ _ _ _ _ window_cT2_cA2.1 window_cT2_cA2.2]
  rw [if_neg (by norm_num)]
  funext j
  rw [uval_cT2_cA2, abs_of_nonneg sqrt_half_nonneg]
  by_cases hj : j = 0
  · rw [if_pos hj, if_pos hj]
    norm_num
  · rw [if_neg hj, if_neg hj]

lemma step_cT2_cA2_at0 :
    absStep voigt 15 1e-5 [cw2] cT2 cA2 (fun _ => 0) 0 =
      c_voigt cT2 cA2 * voigt (aparam cT2 cA2) (Real.sqrt (1/2)) := by
  rw [step_cT2_cA2]
  simp

/-- Transition with zero oscillator strength: its contribution constant
vanishes, whatever the absorber. -/
def cT0 : Transition := ⟨1e13, 0, fourpi⟩

lemma c_voigt_cT0 (ab : Absorber) : c_voigt cT0 ab = 0 := by
  simp [c_voigt, cT0]

lemma getD_set_self {α : Type} (l : List α) (i : ℕ) (v d : α) (h : i < l.length) :
    (l.set i v).getD i d = v := by
  have h2 : i < (l.set i v).length := by simpa using h
  rw [List.getD_eq_getElem _ _ h2]
  exact List.getElem_set_self h2

/-- Heap-style wrapper around the accumulator, modelling the numpy object
store: arrays live in a list `mem` of handles; `tauIn = some i` passes
the caller's array by handle, and the in-place `tau_lam[i1:i2] += ...`
updates amount to a `List.set` at that same handle; with `tauIn` absent
a fresh `np.zeros_like(wave)` array is allocated and appended. -/
def calc_tau_lambda_mem (fast : Bool) (tauMax tauMin : ℝ) (transitions : List Transition)
    (zem : ℝ) (wave : List ℝ) (los : List Absorber) (mem : List (ℕ → ℝ)) :
    Option ℕ → ℕ × List (ℕ → ℝ)
  | some i =>
      (i, mem.set i (calc_tau_lambda fast tauMax tauMin transitions zem wave los
        (mem.getD i fun _ => 0)))
  | none =>
      (mem.length, mem ++ [calc_tau_lambda fast tauMax tauMin transitions zem wave los
        fun _ => 0])

/-! ## The absorber population generator (`generateLOS`, hiforest.py lines 117-158)

The global numpy random state is modelled by an explicit per-component
oracle `RandSrc`: `poisson` stands for `stats.poisson.rvs` (it receives
the mean the code passes it and returns the drawn count) and `xz`, `xN`,
`xb` stand for the three `np.random.random_sample(n)` draws. -/

/-- One component record of a forest model (`Fan99_model` / `WP11_model`
entries).  `bfixed` is the optional `'b'` key (the `try/except KeyError`
in the source); `brange`/`bsig` are only read on the `except` branch. -/
structure ForestComponent where
  zrange : ℝ × ℝ
  logNHrange : ℝ × ℝ
  N0 : ℝ
  gamma : ℝ
  beta : ℝ
  bfixed : Option ℝ
  brange : ℝ × ℝ
  bsig : ℝ

/-- Random oracle for one component. -/
structure RandSrc where
  poisson : ℝ → ℕ
  xz : ℕ → ℝ
  xN : ℕ → ℝ
  xb : ℕ → ℝ

/-- The mean `N = (p['N0']/gamma1) * ((1+z2)**gamma1 - (1+z1)**gamma1)` with
`gamma1 = gamma + 1`, `z1 = max(zmin, zrange[0])`,
`z2 = min(zmax, zrange[1])`: the mean handed to `stats.poisson.rvs`. -/
def expectedN (p : ForestComponent) (zmin zmax : ℝ) : ℝ :=
  let z1 := max zmin p.zrange.1
  let z2 := min zmax p.zrange.2
  let gamma1 := p.gamma + 1
  (p.N0 / gamma1) * ((1 + z2) ^ gamma1 - (1 + z1) ^ gamma1)

/-- Redshift draw `z = (1+z1)*((((1+z2)/(1+z1))**gamma1 - 1)*x + 1)**(1/gamma1) - 1`. -/
def sampleZ (p : ForestComponent) (zmin zmax x : ℝ) : ℝ :=
  let z1 := max zmin p.zrange.1
  let z2 := min zmax p.zrange.2
  let gamma1 := p.gamma + 1
  (1 + z1) * ((((1 + z2) / (1 + z1)) ^ gamma1 - 1) * x + 1) ^ (1 / gamma1) - 1

/-- Column density draw `NHI = NHImin*(1 + x*((NHImax/NHImin)**mbeta1 - 1))**(1/mbeta1)` with
`NHImin = 10**logNHrange[0]`, `NHImax = 10**logNHrange[1]`,
`mbeta1 = -beta + 1`. -/
def sampleNHI (p : ForestComponent) (x : ℝ) : ℝ :=
  let NHImin := (10:ℝ) ^ p.logNHrange.1
  let NHImax := (10:ℝ) ^ p.logNHrange.2
  let mbeta1 := -p.beta + 1
  NHImin * (1 + x * ((NHImax / NHImin) ^ mbeta1 - 1)) ^ (1 / mbeta1)

/-- The `try: b = p['b'] / except KeyError:` branch: a fixed Doppler
width when the component has one, otherwise the Hui & Rutledge (1999)
inverse-CDF draw. -/
def sampleB (p : ForestComponent) (x : ℝ) : ℝ :=
  match p.bfixed with
  | some bv => bv
  | none =>
      let bexp : ℝ → ℝ := fun b => Real.exp (-((b / p.bsig) ^ (-4 : ℤ)))
      p.bsig * (-Real.log ((bexp p.brange.2 - bexp p.brange.1) * x + bexp p.brange.1))
        ^ (-(1:ℝ) / 4)

/-- The body of the per-component loop of `generateLOS` (after the
range check): `n` drawn from Poisson with mean `expectedN`, then the
three inverse-CDF sample arrays assembled into `(z, logNHI, b)` records. -/
def genComponent (p : ForestComponent) (r : RandSrc) (zmin zmax : ℝ) : List Absorber :=
  let n := r.poisson (expectedN p zmin zmax)
  (List.range n).map fun i =>
    { z := sampleZ p zmin zmax (r.xz i)
      logNHI := Real.logb 10 (sampleNHI p (r.xN i))
      b := sampleB p (r.xb i) }

/-- The per-component loop of `generateLOS`: components whose redshift
range misses `[zmin, zmax]` are skipped (`continue`), the others append
their absorber array. -/
def losParts : List (ForestComponent × RandSrc) → ℝ → ℝ → List (List Absorber)
  | [], _, _ => []
  | (p, r) :: rest, zmin, zmax =>
      if zmin > p.zrange.2 ∨ zmax < p.zrange.1 then losParts rest zmin zmax
      else genComponent p r zmin zmax :: losParts rest zmin zmax

/-- The generator `generateLOS(model, zmin, zmax)`: concatenate the per-component
absorber arrays.  `np.concatenate` raises `ValueError` on an empty list
of arrays, modelled by `none`. -/
def generateLOS (model : List (ForestComponent × RandSrc)) (zmin zmax : ℝ) :
    Option (List Absorber) :=
  match losParts model zmin zmax with
  | [] => none
  | parts => some parts.flatten

/-- The `'forest'` component of `Fan99_model` (the `brange`/`bsig` keys
are absent from that dict; the placeholder values are never read because
`bfixed` is set). -/
def Fan99_forest : ForestComponent :=
  { zrange := (0.0, 6.0), logNHrange := (13.0, 17.3), N0 := 50.3, gamma := 2.3,
    beta := 1.41, bfixed := some 30.0, brange := (0, 0), bsig := 0 }

/-- The `'LLS'` component of `Fan99_model`. -/
def Fan99_LLS : ForestComponent :=
  { zrange := (0.0, 6.0), logNHrange := (17.3, 20.5), N0 := 0.27, gamma := 1.55,
    beta := 1.25, bfixed := some 70.0, brange := (0, 0), bsig := 0 }

/-- The `'DLA'` component of `Fan99_model`. -/
def Fan99_DLA : ForestComponent :=
  { zrange := (0.0, 6.0), logNHrange := (20.5, 22.0), N0 := 0.04, gamma := 1.3,
    beta := 1.48, bfixed := some 70.0, brange := (0, 0), bsig := 0 }

/-- A trivial random oracle (all draws zero). -/
def trivRand : RandSrc := ⟨fun _ => 0, fun _ => 0, fun _ => 0, fun _ => 0⟩

lemma losParts_nil_of_skip :
    ∀ (model : List (ForestComponent × RandSrc)) (zmin zmax : ℝ),
      (∀ pr ∈ model, zmin > pr.1.zrange.2 ∨ zmax < pr.1.zrange.1) →
      losParts model zmin zmax = []
  | [], _, _, _ => rfl
  | (p, r) :: rest, zmin, zmax, h => by
      rw [losParts, if_pos (h (p, r) (List.mem_cons_self _ _))]
      exact losParts_nil_of_skip rest zmin zmax fun pr hpr =>
        h pr (List.mem_cons_of_mem _ hpr)

/-- The `'forest3'` component of `WP11_model` (its unused `'B'` key —
never read by `generateLOS` — is not modelled; no `'b'` key, so
`bfixed = none`). -/
def WP11_forest3 : ForestComponent :=
  { zrange := (1.5, 4.6), logNHrange := (17.5, 19.0), N0 := 0.051, gamma := 2.04,
    beta := 0.90, bfixed := none, brange := (10.0, 100.0), bsig := 24.0 }

/-- A component with simple bounds for exercising the column-density
sampler. -/
def c7comp : ForestComponent :=
  { zrange := (0, 1), logNHrange := (1, 2), N0 := 1, gamma := 1,
    beta := 2, bfixed := some 1, brange := (0, 0), bsig := 0 }

lemma sampleNHI_c7_zero : sampleNHI c7comp 0 = (10:ℝ) ^ (1:ℝ) := by
  simp only [sampleNHI, c7comp]
  norm_num [Real.one_rpow]

/-! ## Line-list loading (`_getlinelistdata`, hiforest.py lines 21-33)

The FITS table is modelled as an optional list of ion-name strings
(`linelist.ION`), `none` when the file is missing (in which case
`fits.getdata` raises, modelled by the `none` result); ion names are
lists of characters, and `'HI' in linelist.ION[i]` is the substring
test. -/

/-- Whether `pat` is a prefix of `s` (character lists). -/
def startsWith : List Char → List Char → Bool
  | [], _ => true
  | _ :: _, [] => false
  | c :: cs, d :: ds => c == d && startsWith cs ds

/-- Whether `pat` occurs as a contiguous substring of `s`:
the Python `pat in s` test on strings. -/
def listContains (pat : List Char) : List Char → Bool
  | [] => pat.isEmpty
  | c :: rest => startsWith pat (c :: rest) || listContains pat rest

/-- The loader `_getlinelistdata()`:  `Hlines` collects the indices whose ion name
contains `'HI'`; `LySeries[n+2] = Hlines[-1-n]` assigns series index
`n+2` to the hydrogen entries from the last backwards.  A missing data
file propagates the `fits.getdata` failure (`none`); otherwise the
(linelist, mapping) pair is returned. -/
def getlinelistdata (file : Option (List (List Char))) :
    Option (List (List Char) × List (ℕ × ℕ)) :=
  match file with
  | none => none
  | some linelist =>
      let Hlines := (List.range linelist.length).filter fun i =>
        listContains ['H', 'I'] (linelist.getD i [])
      some (linelist,
        (List.range Hlines.length).map fun n =>
          (n + 2, Hlines.getD (Hlines.length - 1 - n) 0))

end HiForest

/-- C2 counterexample: a single call to `calc_tau_lambda` on a concrete
sightline (one absorber, damping parameter 3) DECREASES a tau entry
below its initial value 0: the per-absorber contribution
`c_voigt * voigt(a,u)` is negative there, refuting the claim that every
contribution is ≥ 0 and tau is monotonically non-decreasing. -/
theorem HiForest.calc_tau_lambda_monotone_cex :
    HiForest.calc_tau_lambda false 15 1e-5 [HiForest.cT2] 0 [HiForest.cw2] [HiForest.cA2]
      (fun _ => 0) 0 < 0 := by
  simp only [HiForest.calc_tau_lambda, HiForest.voigtProfileOf_false, HiForest.sort_single,
    List.foldl_cons, List.foldl_nil]
  rw [HiForest.step_cT2_cA2_at0, HiForest.c_voigt_cT2_cA2, HiForest.aparam_cT2_cA2]
  nlinarith [HiForest.voigt_three_sqrt_half_neg]

/-- C2 (amended): the per-absorber, per-transition contribution need not
be nonnegative (see the counterexample); whenever every contribution
`c_voigt * profile(a, ·)` is pointwise nonnegative, each entry of the
tau array is non-decreasing through the whole accumulation pass. -/
theorem HiForest.calc_tau_lambda_monotone (fast : Bool) (tauMax tauMin zem : ℝ)
    (ts : List HiForest.Transition) (wave : List ℝ) (los : List HiForest.Absorber)
    (tau0 : ℕ → ℝ)
    (hc : ∀ t ∈ ts, ∀ ab ∈ los, ∀ y : ℝ,
      0 ≤ HiForest.c_voigt t ab * HiForest.voigtProfileOf fast (HiForest.aparam t ab) y)
    (j : ℕ) :
    tau0 j ≤ HiForest.calc_tau_lambda fast tauMax tauMin ts zem wave los tau0 j := by
  simp only [HiForest.calc_tau_lambda]
  refine HiForest.foldl_mono _ _ ?_ tau0 j
  intro tau t ht j1
  refine HiForest.foldl_mono _ _ ?_ tau j1
  intro tau2 ab hab j2
  exact HiForest.absStep_mono _ _ _ _ _ _ _
    (fun y => hc t ht ab ((HiForest.argsortDescLogNHI_perm los).subset hab) y) j2

/-- Witness for the amended C2: with a zero-oscillator-strength
transition every contribution is 0, and the tau entry does not
decrease. -/
theorem HiForest.calc_tau_lambda_monotone_witness :
    (0:ℝ) ≤ HiForest.calc_tau_lambda false 15 1e-5 [HiForest.cT0] 0 [HiForest.cw] [HiForest.cA]
      (fun _ => 0) 0 :=
  HiForest.calc_tau_lambda_monotone false 15 1e-5 0 [HiForest.cT0] [HiForest.cw] [HiForest.cA]
    (fun _ => 0)
    (by
      intro t ht ab hab y
      have heq : t = HiForest.cT0 := by simpa using ht
      subst heq
      rw [HiForest.c_voigt_cT0, zero_mul])
    0

/-- C6 counterexample: the same two-absorber set processed in its two
orders yields tau arrays differing by more than 30 at grid position 0
(the tauMax saturation early-exit keeps only the first-processed
absorber's contribution, and the two contributions differ), refuting
order-independence "within floating-point tolerance". -/
theorem HiForest.calc_tau_lambda_order_cex :
    HiForest.calc_tau_lambda false 15 1e-5 [HiForest.cT] 0 [HiForest.cw]
        [HiForest.cA, HiForest.cB] (fun _ => 0) 0 + 30
      < HiForest.calc_tau_lambda false 15 1e-5 [HiForest.cT] 0 [HiForest.cw]
        [HiForest.cB, HiForest.cA] (fun _ => 0) 0 := by
  rw [HiForest.run1_eval, HiForest.run2_eval, HiForest.c_voigt_cT_cB, HiForest.aparam_cT_cB,
    HiForest.c_voigt_cT_cA, HiForest.aparam_cT_cA]
  nlinarith [HiForest.voigt_half_one_bounds.2, HiForest.voigt_one_one_bounds.1]

/-- C6 (amended): order-dependence enters only through the tauMax
saturation early-exit; with that early-exit removed, accumulating the
same absorber set in any order yields the same final tau array (exactly,
in real arithmetic). -/
theorem HiForest.calc_tau_lambda_nosat_perm (fast : Bool) (tauMin zem : ℝ)
    (ts : List HiForest.Transition) (wave : List ℝ) (los₁ los₂ : List HiForest.Absorber)
    (tau0 : ℕ → ℝ) (hp : los₁.Perm los₂) :
    HiForest.calc_tau_lambda_nosat fast tauMin ts zem wave los₁ tau0 =
      HiForest.calc_tau_lambda_nosat fast tauMin ts zem wave los₂ tau0 := by
  simp only [HiForest.calc_tau_lambda_nosat]
  have hsort : (HiForest.argsortDescLogNHI los₁).Perm (HiForest.argsortDescLogNHI los₂) :=
    ((HiForest.argsortDescLogNHI_perm los₁).trans hp).trans
      (HiForest.argsortDescLogNHI_perm los₂).symm
  induction ts generalizing tau0 with
  | nil => rfl
  | cons t rest ih =>
      simp only [List.foldl_cons]
      rw [HiForest.foldl_perm_of_comm _
        (fun b a₁ a₂ => HiForest.absStepNS_comm _ _ _ _ b a₁ a₂) hsort tau0]
      exact ih _

/-- Witness for the amended C6 at the concrete two-absorber sightline. -/
theorem HiForest.calc_tau_lambda_nosat_perm_witness :
    HiForest.calc_tau_lambda_nosat false 1e-5 [HiForest.cT] 0 [HiForest.cw]
        [HiForest.cA, HiForest.cB] (fun _ => 0) =
      HiForest.calc_tau_lambda_nosat false 1e-5 [HiForest.cT] 0 [HiForest.cw]
        [HiForest.cB, HiForest.cA] (fun _ => 0) :=
  HiForest.calc_tau_lambda_nosat_perm false 1e-5 0 [HiForest.cT] [HiForest.cw]
    [HiForest.cA, HiForest.cB] [HiForest.cB, HiForest.cA] (fun _ => 0)
    (List.Perm.swap HiForest.cB HiForest.cA [])

/-- C10: when a pre-existing tau array is supplied via `tauIn`,
`calc_tau_lambda` accumulates into that very array and returns it: in
the heap model, the returned handle is the caller's `tauIn` handle, and
the array stored at that handle afterwards is the accumulated one (the
caller's array is mutated even if the return value is discarded). -/
theorem HiForest.calc_tau_lambda_tauIn_inplace (fast : Bool) (tauMax tauMin zem : ℝ)
    (ts : List HiForest.Transition) (wave : List ℝ) (los : List HiForest.Absorber)
    (mem : List (ℕ → ℝ)) (i : ℕ) (hi : i < mem.length) :
    (HiForest.calc_tau_lambda_mem fast tauMax tauMin ts zem wave los mem (some i)).1 = i ∧
    (HiForest.calc_tau_lambda_mem fast tauMax tauMin ts zem wave los mem
        (some i)).2.getD i (fun _ => 0) =
      HiForest.calc_tau_lambda fast tauMax tauMin ts zem wave los
        (mem.getD i fun _ => 0) := by
  refine ⟨rfl, ?_⟩
  simp only [HiForest.calc_tau_lambda_mem]
  exact HiForest.getD_set_self mem i _ _ hi

/-- Witness for C10 at a one-array heap. -/
theorem HiForest.calc_tau_lambda_tauIn_inplace_witness :
    (HiForest.calc_tau_lambda_mem false 15 1e-5 [] 0 [] [] [fun _ => (0:ℝ)] (some 0)).1 = 0 ∧
    (HiForest.calc_tau_lambda_mem false 15 1e-5 [] 0 [] [] [fun _ => (0:ℝ)]
        (some 0)).2.getD 0 (fun _ => 0) =
      HiForest.calc_tau_lambda false 15 1e-5 [] 0 [] []
        ([fun _ => (0:ℝ)].getD 0 fun _ => 0) :=
  HiForest.calc_tau_lambda_tauIn_inplace false 15 1e-5 0 [] [] [] [fun _ => (0:ℝ)] 0
    (by norm_num)

/-- C1: for every damping parameter `a` and reduced frequency `x ≠ 0`, the
exact Voigt evaluator returns exactly the Tepper-Garcia 2006 expression
`H0 − (a/√π)/x2 · (H0²·(4·x2² + 7·x2 + 4 + Q) − Q − 1)` with `x2 = x²`,
`Q = 1.5/x2`, `H0 = exp(−x2)`. -/
theorem HiForest.voigt_eq_spec (a x : ℝ) (hx : x ≠ 0) :
    HiForest.voigt a x = HiForest.voigtSpec a x := by
  simp only [HiForest.voigt, HiForest.voigtSpec, HiForest.sqrt_pi]
  ring

/-- Witness for C1 at `a = 1`, `x = 1`. -/
theorem HiForest.voigt_eq_spec_witness :
    HiForest.voigt 1 1 = HiForest.voigtSpec 1 1 :=
  HiForest.voigt_eq_spec 1 1 (by norm_num)

/-- C8 counterexample: the claim "voigt(a,x) ≥ 0 for all valid (a,x)" is
false: at `a = 3`, `x = √(1/2)` the exact evaluator returns a strictly
negative value. -/
theorem HiForest.voigt_nonneg_cex : HiForest.voigt 3 (Real.sqrt (1/2)) < 0 :=
  HiForest.voigt_three_sqrt_half_neg

/-- C8 (amended): for every damping parameter `a`, `voigt(a,x)` tends to 0
as `x → +∞` and as `x → −∞` (so as `|x| → ∞`); the nonnegativity part of
the original claim fails for large damping parameters (e.g. `a = 3`). -/
theorem HiForest.voigt_tendsto_zero (a : ℝ) :
    Tendsto (fun x => HiForest.voigt a x) atTop (𝓝 0) ∧
      Tendsto (fun x => HiForest.voigt a x) atBot (𝓝 0) :=
  ⟨HiForest.voigt_tendsto_atTop a, HiForest.voigt_tendsto_atBot a⟩

/-- C4: `VoigtFast.__call__(a,x)` returns the linear interpolation at `x`
of the exact profile precomputed at the `a`-bin whose log10 value is
nearest to `log10 a` among the 30 bins `-3.0 - 0.05 n^1.4`, and returns
exactly 0 whenever `|x|` lies outside the cached range (default ±10). -/
theorem HiForest.VoigtFast_call_spec (a x : ℝ) :
    (∀ i < HiForest.logabins.length,
        |Real.logb 10 a - HiForest.logabins.getD (HiForest.nearestBin a) 0| ≤
          |Real.logb 10 a - HiForest.logabins.getD i 0|) ∧
    HiForest.VoigtFast_call a x =
      HiForest.interpPts
        (HiForest.xfast.map fun t =>
          (t, HiForest.voigt ((10:ℝ) ^ HiForest.logabins.getD (HiForest.nearestBin a) 0) t)) x ∧
    (HiForest.u_range < |x| → HiForest.VoigtFast_call a x = 0) := by
  refine ⟨fun i hi => ?_, HiForest.VoigtFast_call_eq a x, ?_⟩
  · have h := HiForest.argminIdx_min (fun la => |Real.logb 10 a - la|) HiForest.logabins i hi
    simpa [HiForest.nearestBin] using h
  intro hx
  rw [HiForest.VoigtFast_call_eq a x]
  rcases lt_abs.mp hx with h | h
  · apply HiForest.interpPts_zero_of_gt
    intro p hp
    simp only [List.mem_map] at hp
    obtain ⟨t, ht, rfl⟩ := hp
    exact lt_of_le_of_lt (HiForest.xfast_mem_bounds t ht).2 h
  · apply HiForest.interpPts_zero_of_lt
    intro p hp
    simp only [List.mem_map] at hp
    obtain ⟨t, ht, rfl⟩ := hp
    have := (HiForest.xfast_mem_bounds t ht).1
    simp only at this ⊢
    linarith

/-- Witness for C4: out-of-range evaluation returns 0 for a concrete input. -/
theorem HiForest.VoigtFast_call_spec_witness :
    HiForest.VoigtFast_call 0.001 11 = 0 :=
  (HiForest.VoigtFast_call_spec 0.001 11).2.2
    (by rw [show |(11:ℝ)| = 11 from abs_of_nonneg (by norm_num)]
        norm_num [HiForest.u_range])

/-- C3 counterexample: with the Fan99 forest component and the window
[10,20] (no component range intersects it), `generateLOS` does not
return an empty population: all components are skipped and the empty
`np.concatenate([])` raises `ValueError`, modelled by `none`. -/
theorem HiForest.generateLOS_empty_cex :
    HiForest.generateLOS [(HiForest.Fan99_forest, HiForest.trivRand)] 10 20 ≠ some [] ∧
    HiForest.generateLOS [(HiForest.Fan99_forest, HiForest.trivRand)] 10 20 = none := by
  have h : HiForest.losParts [(HiForest.Fan99_forest, HiForest.trivRand)] 10 20 = [] := by
    rw [HiForest.losParts, if_pos]
    · rfl
    · left
      norm_num [HiForest.Fan99_forest]
  simp only [HiForest.generateLOS, h]
  constructor <;> simp

/-- C3 (amended): for every model and window such that no component's
redshift range intersects [zmin, zmax], `generateLOS` raises (the empty
concatenation, modelled `none`) rather than returning an empty
population. -/
theorem HiForest.generateLOS_no_component_error
    (model : List (HiForest.ForestComponent × HiForest.RandSrc)) (zmin zmax : ℝ)
    (h : ∀ pr ∈ model, zmin > pr.1.zrange.2 ∨ zmax < pr.1.zrange.1) :
    HiForest.generateLOS model zmin zmax = none := by
  rw [HiForest.generateLOS, HiForest.losParts_nil_of_skip model zmin zmax h]

/-- Witness for the amended C3 at the Fan99 LLS component. -/
theorem HiForest.generateLOS_no_component_error_witness :
    HiForest.generateLOS [(HiForest.Fan99_LLS, HiForest.trivRand)] 10 20 = none :=
  HiForest.generateLOS_no_component_error _ 10 20
    (by
      intro pr hpr
      rw [List.mem_singleton] at hpr
      subst hpr
      left
      norm_num [HiForest.Fan99_LLS])

/-- C5: the mean handed to the Poisson draw (the `expectedN` value passed
to `stats.poisson.rvs` by `generateLOS`) equals the analytic integral of
`n(z) = N0*(1+z)^gamma` over the intersection `[z1,z2]` of the component
range with `[zmin,zmax]` (whenever `gamma ≠ -1` and the intersection is a
valid interval with `1+z1 > 0`). -/
theorem HiForest.expectedN_eq_integral (p : HiForest.ForestComponent) (zmin zmax : ℝ)
    (hg : p.gamma ≠ -1) (h0 : 0 < 1 + max zmin p.zrange.1)
    (hz : max zmin p.zrange.1 ≤ min zmax p.zrange.2) :
    HiForest.expectedN p zmin zmax =
      ∫ z in (max zmin p.zrange.1)..(min zmax p.zrange.2),
        p.N0 * (1 + z) ^ p.gamma := by
  simp only [HiForest.expectedN]
  rw [intervalIntegral.integral_const_mul]
  have hshift : (∫ z in (max zmin p.zrange.1)..(min zmax p.zrange.2), (1 + z) ^ p.gamma)
      = ∫ u in (1 + max zmin p.zrange.1)..(1 + min zmax p.zrange.2), u ^ p.gamma := by
    simpa using intervalIntegral.integral_comp_add_left (fun u => u ^ p.gamma) 1
  rw [hshift]
  rw [integral_rpow (Or.inr ⟨hg, by
    intro hmem
    rw [Set.uIcc_of_le (by linarith)] at hmem
    have := hmem.1
    linarith⟩)]
  have hg1 : p.gamma + 1 ≠ 0 := fun hcon => hg (by linarith)
  field_simp

/-- Witness for C5 at the Fan99 forest component on [0, 6]. -/
theorem HiForest.expectedN_eq_integral_witness :
    HiForest.expectedN HiForest.Fan99_forest 0 6 =
      ∫ z in (max (0:ℝ) HiForest.Fan99_forest.zrange.1)..(min (6:ℝ)
          HiForest.Fan99_forest.zrange.2),
        HiForest.Fan99_forest.N0 * (1 + z) ^ HiForest.Fan99_forest.gamma :=
  HiForest.expectedN_eq_integral HiForest.Fan99_forest 0 6
    (by norm_num [HiForest.Fan99_forest])
    (by norm_num [HiForest.Fan99_forest])
    (by norm_num [HiForest.Fan99_forest])

/-- C7 counterexample: at uniform draw `x = 0` — a value
`np.random.random_sample` attains — the sampled column density equals
the lower bound `10^logN_lo` exactly, so it is not strictly inside the
open interval `(10^logN_lo, 10^logN_hi)`. -/
theorem HiForest.sampleNHI_strict_cex :
    ¬ ((10:ℝ) ^ HiForest.c7comp.logNHrange.1 < HiForest.sampleNHI HiForest.c7comp 0 ∧
       HiForest.sampleNHI HiForest.c7comp 0 < (10:ℝ) ^ HiForest.c7comp.logNHrange.2) := by
  intro hcl
  have hlo : HiForest.c7comp.logNHrange.1 = (1:ℝ) := by norm_num [HiForest.c7comp]
  rw [hlo, HiForest.sampleNHI_c7_zero] at hcl
  exact lt_irrefl _ hcl.1

/-- C7 (amended): for every component with `beta ≠ 1` (the code divides
by `mbeta1 = 1 - beta`, degenerate only at `beta = 1`) and
`logN_lo < logN_hi`, and every uniform draw `x ∈ [0,1)`, the sampled
column density satisfies `10^logN_lo ≤ NHI < 10^logN_hi`; the lower
bound is attained (equality) exactly at `x = 0`, so strictness on the
lower side fails only there. -/
theorem HiForest.sampleNHI_bounds (p : HiForest.ForestComponent) (x : ℝ)
    (hb : p.beta ≠ 1) (hN : p.logNHrange.1 < p.logNHrange.2)
    (hx0 : 0 ≤ x) (hx1 : x < 1) :
    (10:ℝ) ^ p.logNHrange.1 ≤ HiForest.sampleNHI p x ∧
      HiForest.sampleNHI p x < (10:ℝ) ^ p.logNHrange.2 := by
  simp only [HiForest.sampleNHI]
  have hminpos : (0:ℝ) < (10:ℝ) ^ p.logNHrange.1 := Real.rpow_pos_of_pos (by norm_num) _
  have hRgt1 : 1 < (10:ℝ) ^ p.logNHrange.2 / (10:ℝ) ^ p.logNHrange.1 :=
    (one_lt_div hminpos).mpr ((Real.rpow_lt_rpow_left_iff (by norm_num)).mpr hN)
  have hRpos : (0:ℝ) < (10:ℝ) ^ p.logNHrange.2 / (10:ℝ) ^ p.logNHrange.1 := by linarith
  have hmne : -p.beta + 1 ≠ 0 := fun hc => hb (by linarith)
  have hrpos : 0 < ((10:ℝ) ^ p.logNHrange.2 / (10:ℝ) ^ p.logNHrange.1) ^ (-p.beta + 1) :=
    Real.rpow_pos_of_pos hRpos _
  have h3 : (((10:ℝ) ^ p.logNHrange.2 / (10:ℝ) ^ p.logNHrange.1) ^ (-p.beta + 1))
        ^ (1 / (-p.beta + 1))
      = (10:ℝ) ^ p.logNHrange.2 / (10:ℝ) ^ p.logNHrange.1 := by
    rw [← Real.rpow_mul (le_of_lt hRpos)]
    rw [mul_one_div, div_self hmne, Real.rpow_one]
  have key : 1 ≤ (1 + x * (((10:ℝ) ^ p.logNHrange.2 / (10:ℝ) ^ p.logNHrange.1)
          ^ (-p.beta + 1) - 1)) ^ (1 / (-p.beta + 1)) ∧
      (1 + x * (((10:ℝ) ^ p.logNHrange.2 / (10:ℝ) ^ p.logNHrange.1)
          ^ (-p.beta + 1) - 1)) ^ (1 / (-p.beta + 1))
        < (10:ℝ) ^ p.logNHrange.2 / (10:ℝ) ^ p.logNHrange.1 := by
    rcases lt_or_gt_of_ne hb with hlt | hgt
    · -- beta < 1: the exponent mbeta1 = 1 - beta is positive
      have hm : 0 < -p.beta + 1 := by linarith
      have hr1 : 1 < ((10:ℝ) ^ p.logNHrange.2 / (10:ℝ) ^ p.logNHrange.1) ^ (-p.beta + 1) :=
        (Real.one_lt_rpow_iff_of_pos hRpos).mpr (Or.inl ⟨hRgt1, hm⟩)
      have hs1 : 1 ≤ 1 + x * (((10:ℝ) ^ p.logNHrange.2 / (10:ℝ) ^ p.logNHrange.1)
          ^ (-p.beta + 1) - 1) := by nlinarith
      have hsr : 1 + x * (((10:ℝ) ^ p.logNHrange.2 / (10:ℝ) ^ p.logNHrange.1)
            ^ (-p.beta + 1) - 1)
          < ((10:ℝ) ^ p.logNHrange.2 / (10:ℝ) ^ p.logNHrange.1) ^ (-p.beta + 1) := by
        nlinarith
      have hc : 0 < 1 / (-p.beta + 1) := by positivity
      constructor
      · calc (1:ℝ) = (1:ℝ) ^ (1 / (-p.beta + 1)) := (Real.one_rpow _).symm
          _ ≤ _ := Real.rpow_le_rpow (by norm_num) hs1 (le_of_lt hc)
      · calc (1 + x * (((10:ℝ) ^ p.logNHrange.2 / (10:ℝ) ^ p.logNHrange.1)
                ^ (-p.beta + 1) - 1)) ^ (1 / (-p.beta + 1))
            < (((10:ℝ) ^ p.logNHrange.2 / (10:ℝ) ^ p.logNHrange.1) ^ (-p.beta + 1))
                ^ (1 / (-p.beta + 1)) := Real.rpow_lt_rpow (by linarith) hsr hc
          _ = _ := h3
    · -- beta > 1: the exponent mbeta1 = 1 - beta is negative
      have hm : -p.beta + 1 < 0 := by linarith
      have hr1 : ((10:ℝ) ^ p.logNHrange.2 / (10:ℝ) ^ p.logNHrange.1) ^ (-p.beta + 1) < 1 :=
        Real.rpow_lt_one_of_one_lt_of_neg hRgt1 hm
      have hs_pos : 0 < 1 + x * (((10:ℝ) ^ p.logNHrange.2 / (10:ℝ) ^ p.logNHrange.1)
          ^ (-p.beta + 1) - 1) := by nlinarith
      have hs_le1 : 1 + x * (((10:ℝ) ^ p.logNHrange.2 / (10:ℝ) ^ p.logNHrange.1)
          ^ (-p.beta + 1) - 1) ≤ 1 := by nlinarith
      have hs_gt_r : ((10:ℝ) ^ p.logNHrange.2 / (10:ℝ) ^ p.logNHrange.1) ^ (-p.beta + 1)
          < 1 + x * (((10:ℝ) ^ p.logNHrange.2 / (10:ℝ) ^ p.logNHrange.1)
            ^ (-p.beta + 1) - 1) := by nlinarith
      have hinv_m : 1 / (-p.beta + 1) < 0 := by
        apply div_neg_of_pos_of_neg
        · norm_num
        · linarith
      constructor
      · exact Real.one_le_rpow_of_pos_of_le_one_of_nonpos hs_pos hs_le1 (le_of_lt hinv_m)
      · calc (1 + x * (((10:ℝ) ^ p.logNHrange.2 / (10:ℝ) ^ p.logNHrange.1)
                ^ (-p.beta + 1) - 1)) ^ (1 / (-p.beta + 1))
            < (((10:ℝ) ^ p.logNHrange.2 / (10:ℝ) ^ p.logNHrange.1) ^ (-p.beta + 1))
                ^ (1 / (-p.beta + 1)) := Real.rpow_lt_rpow_of_neg hrpos hs_gt_r hinv_m
          _ = _ := h3
  constructor
  · nlinarith [key.1]
  · calc (10:ℝ) ^ p.logNHrange.1 * (1 + x * (((10:ℝ) ^ p.logNHrange.2 /
            (10:ℝ) ^ p.logNHrange.1) ^ (-p.beta + 1) - 1)) ^ (1 / (-p.beta + 1))
        < (10:ℝ) ^ p.logNHrange.1 *
            ((10:ℝ) ^ p.logNHrange.2 / (10:ℝ) ^ p.logNHrange.1) :=
          mul_lt_mul_of_pos_left key.2 hminpos
      _ = (10:ℝ) ^ p.logNHrange.2 := by field_simp

/-- Witness for the amended C7 at the WP11 `'forest3'` component
(`beta = 0.90 < 1`, the case a stronger hypothesis would have missed)
and x = 1/2. -/
theorem HiForest.sampleNHI_bounds_witness :
    (10:ℝ) ^ HiForest.WP11_forest3.logNHrange.1 ≤
        HiForest.sampleNHI HiForest.WP11_forest3 (1/2) ∧
      HiForest.sampleNHI HiForest.WP11_forest3 (1/2) <
        (10:ℝ) ^ HiForest.WP11_forest3.logNHrange.2 :=
  HiForest.sampleNHI_bounds HiForest.WP11_forest3 (1/2)
    (by norm_num [HiForest.WP11_forest3]) (by norm_num [HiForest.WP11_forest3])
    (by norm_num) (by norm_num)

/-- C9 counterexample: on line-list data that is present but contains no
hydrogen entries (a single ion `OVI`), `_getlinelistdata` does NOT fail:
it returns normally with an empty transition mapping, refuting the claim
that it fails fatally and never returns an empty mapping. -/
theorem HiForest.getlinelistdata_noHI_cex :
    HiForest.getlinelistdata (some [['O', 'V', 'I']]) ≠ none ∧
    HiForest.getlinelistdata (some [['O', 'V', 'I']]) = some ([['O', 'V', 'I']], []) := by
  constructor
  · decide
  · decide

/-- C9 (amended): loading fails fatally when the data file is missing
(the `fits.getdata` failure propagates); but when the data contains no
`HI` entries it returns normally with an EMPTY transition mapping
instead of failing. -/
theorem HiForest.getlinelistdata_amended :
    HiForest.getlinelistdata none = none ∧
    ∀ ll : List (List Char),
      (∀ ion ∈ ll, HiForest.listContains ['H', 'I'] ion = false) →
      HiForest.getlinelistdata (some ll) = some (ll, []) := by
  refine ⟨rfl, ?_⟩
  intro ll h
  have hfilter : ((List.range ll.length).filter fun i =>
      HiForest.listContains ['H', 'I'] (ll.getD i [])) = [] := by
    rw [List.filter_eq_nil_iff]
    intro i hi
    rw [List.mem_range] at hi
    have hmem : ll.getD i [] ∈ ll := by
      rw [List.getD_eq_getElem _ _ hi]
      exact List.getElem_mem hi
    have hval := h _ hmem
    rw [List.getD_eq_getElem _ _ hi] at hval
    simp [List.getElem?_eq_getElem hi, hval]
  simp only [HiForest.getlinelistdata, hfilter]
  rfl

/-- Witness for the amended C9: a concrete helium-only line list yields
the empty mapping. -/
theorem HiForest.getlinelistdata_amended_witness :
    HiForest.getlinelistdata (some [['H', 'e', 'I']]) = some ([['H', 'e', 'I']], []) :=
  HiForest.getlinelistdata_amended.2 [['H', 'e', 'I']] (by decide)
